import Mathlib

/-!
Verification of the message-intent routing and temporal log engine of a
LINE chat journal bot (source: src/api/webhook.js).

Message texts are modelled as `List Char`.  Each definition below is a
direct translation of the corresponding JavaScript function; the current
Taipei-local calendar date (derived at runtime from the clock) and the
results of the external collaborator calls (OpenAI classification,
summarisation, phrase generation, dialogue) enter as explicit parameters.
-/

set_option autoImplicit false

deriving instance DecidableEq for Except

namespace Webhook

/-! ### JavaScript string primitives -/

/-- Whitespace characters recognised by JavaScript `String.prototype.trim`
(restricted to the ASCII whitespace actually reachable in chat text). -/
def wsChar (c : Char) : Bool :=
  c = ' ' || c = '\t' || c = '\n' || c = '\r' || c = '\x0b' || c = '\x0c'

/-- Drop leading whitespace (one-sided helper for `jsTrim`). -/
def trimLeft : List Char → List Char
  | [] => []
  | c :: rest => if wsChar c then trimLeft rest else c :: rest

/-- Drop trailing whitespace. -/
def trimRight (cs : List Char) : List Char :=
  (trimLeft cs.reverse).reverse

/-- JavaScript `text.trim()`. -/
def jsTrim (cs : List Char) : List Char :=
  trimLeft (trimRight cs)

/-- Contiguous-sublist containment (helper for `hasSub`). -/
def occursIn (needle : List Char) : List Char → Bool
  | [] => needle.isEmpty
  | c :: rest => needle.isPrefixOf (c :: rest) || occursIn needle rest

/-- JavaScript `hay.includes(needle)` (substring containment). -/
def hasSub (needle : String) (hay : List Char) : Bool :=
  occursIn needle.data hay

/-- JavaScript `text.startsWith(p)`. -/
def startsWith (p : String) (hay : List Char) : Bool :=
  p.data.isPrefixOf hay

/-- JavaScript `text.split(" ")`: split on every single space character,
keeping empty components; the result is never the empty list. -/
def splitOnSpace : List Char → List (List Char)
  | [] => [[]]
  | c :: rest =>
    match splitOnSpace rest with
    | [] => [[]]
    | w :: ws => if c = ' ' then [] :: w :: ws else (c :: w) :: ws

/-! ### Models of the regular expressions in `webhook.js` -/

/-- JavaScript `\d` (a decimal digit). -/
def isDigit (c : Char) : Bool :=
  '0' ≤ c && c ≤ '9'

/-- Numeric value of a digit character. -/
def dv (c : Char) : Nat :=
  c.toNat - '0'.toNat

/-- Greedy match of a trailing `(\d{1,2})` group at the head of the input
(`none` when the first character is not a digit). -/
def grab2 : List Char → Option Nat
  | [] => none
  | [a] => if isDigit a then some (dv a) else none
  | a :: b :: _ =>
    if isDigit a then
      some (if isDigit b then dv a * 10 + dv b else dv a)
    else none

/-- Separator set of the month/day regex `[\/\-]`. -/
def isMdSep (c : Char) : Bool :=
  c = '/' || c = '-'

/-- Match `(\d{1,2})[\/\-](\d{1,2})` anchored at the head of the input,
with the greedy-then-backtrack behaviour of the JavaScript engine. -/
def matchMdAt : List Char → Option (Nat × Nat)
  | a :: b :: rest =>
    if isDigit a then
      if isDigit b then
        match rest with
        | s :: rest2 =>
          if isMdSep s then
            match grab2 rest2 with
            | some d => some (dv a * 10 + dv b, d)
            | none => none
          else none
        | [] => none
      else if isMdSep b then
        match grab2 rest with
        | some d => some (dv a, d)
        | none => none
      else none
    else none
  | _ => none

/-- Leftmost match of `/(\d{1,2})[\/\-](\d{1,2})/` in the text
(JavaScript `text.match(...)`, returning the two captured numbers). -/
def mdMatch : List Char → Option (Nat × Nat)
  | [] => none
  | c :: rest =>
    match matchMdAt (c :: rest) with
    | some r => some r
    | none => mdMatch rest

/-- Separator set of the time regex `[:點]`. -/
def isTimeSep (c : Char) : Bool :=
  c = ':' || c = '點'

/-- Match `(\d{1,2})(?:[:點](\d{1,2})?)` anchored at the head of the input. -/
def matchTimeAt : List Char → Option (Nat × Option Nat)
  | a :: b :: rest =>
    if isDigit a then
      if isDigit b then
        match rest with
        | s :: rest2 =>
          if isTimeSep s then some (dv a * 10 + dv b, grab2 rest2) else none
        | [] => none
      else if isTimeSep b then some (dv a, grab2 rest)
      else none
    else none
  | _ => none

/-- Leftmost match of `/(\d{1,2})(?:[:點](\d{1,2})?)/` in the text. -/
def timeMatch : List Char → Option (Nat × Option Nat)
  | [] => none
  | c :: rest =>
    match matchTimeAt (c :: rest) with
    | some r => some r
    | none => timeMatch rest

/-- Leftmost match of `/約.*$/`: the suffix starting at the first `約`
that is followed by no line terminator (JavaScript `.` excludes line
terminators and `$` without the `m` flag only matches at end of input). -/
def approxMatch : List Char → Option (List Char)
  | [] => none
  | c :: rest =>
    if c = '約' && rest.all (fun x => x ≠ '\n' && x ≠ '\r') then
      some (c :: rest)
    else approxMatch rest

/-! ### Calendar arithmetic (JavaScript `Date` day stepping) -/

/-- Calendar date (year, month 1-12, day 1-31). -/
structure Ymd where
  y : Int
  m : Nat
  d : Nat
  deriving DecidableEq, Repr

/-- Gregorian leap year. -/
def isLeap (y : Int) : Bool :=
  (y % 4 = 0 && y % 100 ≠ 0) || y % 400 = 0

/-- Number of days in a month. -/
def daysInMonth (y : Int) (m : Nat) : Nat :=
  if m = 2 then (if isLeap y then 29 else 28)
  else if m = 4 || m = 6 || m = 9 || m = 11 then 30
  else 31

/-- The calendar day after `dt` (JavaScript `setDate(getDate() + 1)`). -/
def nextDay (dt : Ymd) : Ymd :=
  if dt.d < daysInMonth dt.y dt.m then ⟨dt.y, dt.m, dt.d + 1⟩
  else if dt.m < 12 then ⟨dt.y, dt.m + 1, 1⟩
  else ⟨dt.y + 1, 1, 1⟩

/-- The calendar day before `dt` (JavaScript `setDate(getDate() - 1)`). -/
def prevDay (dt : Ymd) : Ymd :=
  if 1 < dt.d then ⟨dt.y, dt.m, dt.d - 1⟩
  else if 1 < dt.m then ⟨dt.y, dt.m - 1, daysInMonth dt.y (dt.m - 1)⟩
  else ⟨dt.y - 1, 12, 31⟩

/-- A well-formed calendar date. -/
def validYmd (dt : Ymd) : Bool :=
  1 ≤ dt.m && dt.m ≤ 12 && 1 ≤ dt.d && dt.d ≤ daysInMonth dt.y dt.m

/-! ### Temporal parser (`parseDateTimeDetailed`) -/

/-- Vague-time marker test, regex `/約|大約/`. -/
def hasVagueMarker (cs : List Char) : Bool :=
  hasSub "約" cs || hasSub "大約" cs

/-- Relative-day resolution of `parseDateTimeDetailed` (lines 136-150 of
`webhook.js`): the first matching phrase of the if/else chain
今天 / 昨天 / 前天 / 明天 sets the date; the Bool is `hadDate`. -/
def resolveRelativeDay (base : Ymd) (text : List Char) : Ymd × Bool :=
  if hasSub "今天" text then (base, true)
  else if hasSub "昨天" text then (prevDay base, true)
  else if hasSub "前天" text then (prevDay (prevDay base), true)
  else if hasSub "明天" text then (nextDay base, true)
  else (base, false)

/-- Resolved wall-clock fields (UTC+8) of a parsed instant. -/
structure IsoParts where
  y : Int
  m : Nat
  d : Nat
  hh : Nat
  mi : Nat
  deriving DecidableEq, Repr

/-- Result of the temporal parser: a display string and an optional
canonical instant. -/
structure ParseOut where
  display : List Char
  iso : Option IsoParts
  deriving DecidableEq, Repr

/-- Validity of the ISO string
`y-mm-ddThh:mi:00+08:00` fed to the JavaScript `Date` constructor:
an out-of-range field makes `new Date(...)` an Invalid Date, whose
`toISOString()` throws. -/
def validDateTime (y : Int) (m d hh mi : Nat) : Bool :=
  1 ≤ m && m ≤ 12 && 1 ≤ d && d ≤ daysInMonth y m &&
    (hh < 24 || (hh = 24 && mi = 0)) && mi < 60

/-- Decimal digits of a number. -/
def natChars (n : Nat) : List Char :=
  Nat.toDigits 10 n

/-- JavaScript `String(n).padStart(2, "0")` for `n ≤ 99`. -/
def pad2 (n : Nat) : List Char :=
  if n < 10 then '0' :: natChars n else natChars n

/-- Display string `m/d hh:mi` built from the resolved fields
(month and day unpadded, hour and minute padded). -/
def fmtDisplay (m d hh mi : Nat) : List Char :=
  natChars m ++ "/".data ++ natChars d ++ " ".data ++ pad2 hh ++ ":".data ++ pad2 mi

/-- Translation of `parseDateTimeDetailed(text)`.  `base` is the current
Taipei-local calendar date (the source derives it from the clock shifted
to UTC+8).  A `.error` result models the uncaught `RangeError` thrown by
`toISOString()` on an Invalid Date. -/
def parseDateTimeDetailedE (base : Ymd) (text : List Char) :
    Except Unit ParseOut :=
  if hasVagueMarker text then
    .ok ⟨jsTrim ((approxMatch text).getD text), none⟩
  else
    let rel := resolveRelativeDay base text
    let ymd :=
      match mdMatch text with
      | some (mm, dd) => (⟨rel.1.y, mm, dd⟩ : Ymd)
      | none => rel.1
    let hadDate :=
      match mdMatch text with
      | some _ => true
      | none => rel.2
    let tm :=
      match timeMatch text with
      | some (h, some mv) => (h, mv)
      | some (h, none) => (h, if hasSub "半" text then 30 else 0)
      | none => (0, 0)
    if hadDate then
      if validDateTime ymd.y ymd.m ymd.d tm.1 tm.2 then
        .ok ⟨fmtDisplay ymd.m ymd.d tm.1 tm.2, some ⟨ymd.y, ymd.m, ymd.d, tm.1, tm.2⟩⟩
      else .error ()
    else .ok ⟨jsTrim text, none⟩

/-- ISO string produced by `toISOString()` for the wall-clock fields
interpreted in UTC+8 (hour 24 normalises to the next day, then the
instant is shifted back eight hours to UTC). -/
def isoUtcString (p : IsoParts) : List Char :=
  let dt0 : Ymd := ⟨p.y, p.m, p.d⟩
  let a := if p.hh = 24 then (nextDay dt0, 0) else (dt0, p.hh)
  let b := if a.2 < 8 then (prevDay a.1, a.2 + 16) else (a.1, a.2 - 8)
  let ds := natChars b.1.y.toNat
  (List.replicate (4 - ds.length) '0' ++ ds) ++ "-".data ++ pad2 b.1.m ++
    "-".data ++ pad2 b.1.d ++ "T".data ++ pad2 b.2 ++ ":".data ++
    pad2 p.mi ++ ":00.000Z".data

/-! ### Intent predicates (訊息判斷) -/

/-- Source `isBacklogMessage`: regex `/^補記/` on the trimmed text. -/
def isBacklogMessage (text : List Char) : Bool :=
  startsWith "補記" (jsTrim text)

/-- Source `isSummaryRequest`: `text.includes("總結")`. -/
def isSummaryRequest (text : List Char) : Bool :=
  hasSub "總結" text

/-- Source `isUndoRequest`: `text.includes("撤銷") || text.includes("刪除上一則")`. -/
def isUndoRequest (text : List Char) : Bool :=
  hasSub "撤銷" text || hasSub "刪除上一則" text

/-- Regex `/[嗎\?？]$/`: the last character is a question marker. -/
def endsWithQuestionMark (text : List Char) : Bool :=
  match text.getLast? with
  | some c => c = '嗎' || c = '?' || c = '？'
  | none => false

/-- Non-log sentence openers excluded by `isLogCandidate`. -/
def nonLogStarts : List String :=
  ["我覺得", "我希望", "我猜", "我認為", "可以幫", "能不能", "要不要", "是不是"]

/-- Action-verb vocabulary of `isLogCandidate`. -/
def logVerbs : List String :=
  ["起床", "出門", "到", "回", "吃", "喝", "買", "畫", "寫", "處理", "做",
   "打掃", "清理", "看", "睡", "休息", "洗", "完成", "準備"]

/-- Source `isLogCandidate(text)`: the instant-log acceptance test. -/
def isLogCandidate (text : List Char) : Bool :=
  if endsWithQuestionMark text then false
  else if nonLogStarts.any (fun p => startsWith p text) then false
  else if startsWith "補記" text || hasSub "總結" text || startsWith "撤銷" text then false
  else if logVerbs.any (fun v => hasSub v text) then true
  else startsWith "我" text || hasSub "正在" text || hasSub "剛" text

/-- The five handler branches, in the order the source tests them. -/
inductive Route
  | undo
  | backlog
  | instantLog
  | summary
  | conversation
  deriving DecidableEq, Repr

/-- Branch selected by the handler's if/else chain for one text message. -/
def routeOf (text : List Char) : Route :=
  if isUndoRequest text then .undo
  else if isBacklogMessage text then .backlog
  else if isLogCandidate text then .instantLog
  else if isSummaryRequest text then .summary
  else .conversation

/-! ### Classifier (`classifyStateLog`) -/

/-- JavaScript values delivered by `JSON.parse` (plus `undefined` for
missing-field access). -/
inductive Js
  | undefined
  | null
  | jbool (b : Bool)
  | jnum (n : Int)
  | jstr (s : String)
  | jarr (xs : List Js)
  | jobj (fields : List (String × Js))

/-- JavaScript property access `v[k]` (`undefined` on a miss or on a
non-object). -/
def jsGetField (v : Js) (k : String) : Js :=
  match v with
  | .jobj fields =>
    match List.lookup k fields with
    | some x => x
    | none => .undefined
  | _ => .undefined

/-- Keyword group mapped to `A. 藝廊工作`. -/
def galleryKeywords : List String :=
  ["藝廊", "展覽", "展場", "佈展", "撤展", "策展", "會計", "收據",
   "做網站", "架網站", "朝朝", "陸角銀", "講座",
   "顧展", "收展", "展品", "藝術家", "寄賣", "分潤", "對帳"]

/-- Maintenance verbs of the office compound rule. -/
def officeActions : List String :=
  ["打掃", "清理", "整理", "收納", "維護", "修繕", "補貨", "檢查"]

/-- Category returned by the gallery keyword rule. -/
def galleryCategory : Js :=
  .jobj [("main", .jarr [.jstr "A. 藝廊工作"]), ("tags", .jarr [.jstr "🧾 行政"])]

/-- Category returned by the office compound rule. -/
def officeCategory : Js :=
  .jobj [("main", .jarr [.jstr "E. 辦公室維運"]), ("tags", .jarr [.jstr "🧹 環境整理"])]

/-- Catch-all category returned by the `catch` branch. -/
def defaultCategory : Js :=
  .jobj [("main", .jarr [.jstr "F. 生活日常"]), ("tags", .jarr [.jstr "📝 其他"])]

/-- Translation of `classifyStateLog(text)`.  `gpt` is the outcome of the
collaborator call: `.error` when the call threw or its response content
was not valid JSON (either makes `JSON.parse`'s enclosing `try` fail),
`.ok v` when `JSON.parse` succeeded with value `v`. -/
def classifyStateLog (text : List Char) (gpt : Except Unit Js) : Js :=
  if galleryKeywords.any (fun kw => hasSub kw text) then galleryCategory
  else if (hasSub "辦公室" text && officeActions.any (fun kw => hasSub kw text)) ||
      hasSub "洗衣店" text then officeCategory
  else
    match gpt with
    | .ok v => v
    | .error _ => defaultCategory

/-- Closed primary-module enumeration of the classification contract. -/
def moduleEnum : List String :=
  ["A. 藝廊工作", "B. Podcast", "C. 商業漫畫", "D. 同人與委託",
   "E. 辦公室維運", "F. 生活日常"]

/-- Closed auxiliary-tag vocabulary of the classification contract. -/
def tagVocab : List String :=
  ["🎨 創作", "🚗 交通", "🧾 行政", "💰 財務", "📢 SNS／宣傳",
   "🍱 飲食", "💊 健康", "👥 社交", "😴 休息", "📝 其他", "🧹 環境整理"]

/-- An array whose members are all strings drawn from `vocab`. -/
def strArrayFrom (vocab : List String) : Js → Bool
  | .jarr xs =>
    xs.all fun x =>
      match x with
      | .jstr s => vocab.contains s
      | _ => false
  | _ => false

/-- Modelled from the spec: the classification collaborator contract
(§6), which the source never checks — a payload must be an object with a
`main` array drawn from the closed module enumeration and a `tags` array
drawn from the closed tag vocabulary. -/
def validSchema (v : Js) : Bool :=
  match jsGetField v "main", jsGetField v "tags" with
  | .undefined, _ => false
  | _, .undefined => false
  | mv, tv => strArrayFrom moduleEnum mv && strArrayFrom tagVocab tv

/-! ### Log store and undo -/

/-- Entry kind: live record or backdated record. -/
inductive EntryKind
  | instant
  | backlog
  deriving DecidableEq, Repr

/-- One element of the module-level `logs` array. -/
structure LogEntry where
  kind : EntryKind
  timeISO : Option (List Char)
  timeDisplay : List Char
  summary : List Char
  main : Js
  tags : Js
  deleted : Bool

/-- Explicit undo target token: `parts[1].trim()` of
`userText.split(" ")`, when a second component exists. -/
def extractToken (text : List Char) : Option (List Char) :=
  match splitOnSpace text with
  | _ :: t :: _ => some (jsTrim t)
  | _ => none

/-- Predicate of the explicit-target search:
`!log.deleted && (log.timeISO === t || log.timeDisplay === t)`. -/
def matchesToken (tok : List Char) (e : LogEntry) : Bool :=
  !e.deleted &&
    ((match e.timeISO with
      | some s => s == tok
      | none => false) ||
     e.timeDisplay == tok)

/-- Index of the first entry matching the token
(`logs.find(...)` scans from the start of the array). -/
def findTokenIdx (tok : List Char) : List LogEntry → Option Nat
  | [] => none
  | e :: rest =>
    if matchesToken tok e then some 0
    else (findTokenIdx tok rest).map (· + 1)

/-- Index of the last non-deleted entry
(`[...logs].reverse().find((log) => !log.deleted)`). -/
def lastNonDeletedIdx : List LogEntry → Option Nat
  | [] => none
  | e :: rest =>
    match lastNonDeletedIdx rest with
    | some j => some (j + 1)
    | none => if e.deleted then none else some 0

/-- Soft-delete the entry at index `i` (the source sets
`targetLog.deleted = true` through the object reference). -/
def setDeletedAt : List LogEntry → Nat → List LogEntry
  | [], _ => []
  | e :: rest, 0 => ⟨e.kind, e.timeISO, e.timeDisplay, e.summary, e.main, e.tags, true⟩ :: rest
  | e :: rest, Nat.succ n => e :: setDeletedAt rest n

/-- Index the undo branch soft-deletes: the explicit-token match when one
exists, else the last non-deleted entry. -/
def undoTargetIdx (text : List Char) (logs : List LogEntry) : Option Nat :=
  match extractToken text with
  | some tok =>
    match findTokenIdx tok logs with
    | some i => some i
    | none => lastNonDeletedIdx logs
  | none => lastNonDeletedIdx logs

/-- Fixed failure reply of the undo branch. -/
def noUndoMsg : List Char :=
  "⚠️ 沒有可撤銷的紀錄".data

/-- Success reply of the undo branch
(`↩️ 已撤銷紀錄：${timeDisplay || ""}｜${summary || "(無摘要)"}`). -/
def undoReply (e : LogEntry) : List Char :=
  "↩️ 已撤銷紀錄：".data ++ e.timeDisplay ++ "｜".data ++
    (if e.summary.isEmpty then "(無摘要)".data else e.summary)

/-- The undo branch of the handler: returns the store after the request
and the reply text. -/
def undoStep (text : List Char) (logs : List LogEntry) :
    List LogEntry × List Char :=
  match undoTargetIdx text logs with
  | some i =>
    (setDeletedAt logs i,
     match logs[i]? with
     | some e => undoReply e
     | none => noUndoMsg)
  | none => (logs, noUndoMsg)

/-! ### Summary range selection -/

/-- Range kind resolved by the summary branch. -/
inductive RangeType
  | today
  | week
  | month
  | custom (m d : Nat)
  deriving DecidableEq, Repr

/-- Range selection of the summary branch (lines 451-467 of
`webhook.js`): weekly keyword, else monthly keyword, else an explicit
`mm/dd` or `mm-dd` pattern, else today. -/
def summaryRangeType (text : List Char) : RangeType :=
  if hasSub "週" text then .week
  else if hasSub "月" text then .month
  else
    match mdMatch text with
    | some (m, d) => .custom m d
    | none => .today

/-! ### Handler store effect -/

/-- Strip the backlog marker: `userText.replace(/^補記[:：]?\s*/, "")`. -/
def stripBacklogMarker (cs : List Char) : List Char :=
  if startsWith "補記" cs then
    let rest := cs.drop 2
    let rest2 :=
      match rest with
      | c :: r => if c = ':' || c = '：' then r else rest
      | [] => []
    trimLeft rest2
  else cs

/-- Backlog entry pushed by the handler. -/
def backlogEntry (t : ParseOut) (cat : Js) (summaryTxt : List Char) : LogEntry :=
  ⟨.backlog, t.iso.map isoUtcString, t.display, summaryTxt,
   jsGetField cat "main", jsGetField cat "tags", false⟩

/-- Instant entry pushed by the handler (`nowIso`, `nowDisp` are the
values of `nowUtcISO()` and `nowTaipeiDisplay()` at processing time). -/
def instantEntry (nowIso nowDisp : List Char) (cat : Js) (summaryTxt : List Char) :
    LogEntry :=
  ⟨.instant, some nowIso, nowDisp, summaryTxt,
   jsGetField cat "main", jsGetField cat "tags", false⟩

/-- Store contents after the handler processes one text message.  `base`
is the current Taipei-local date, `gpt` the classification collaborator
outcome, `summaryTxt` the summarisation collaborator output.  A `.error`
result models an exception escaping the per-message logic to the
handler's outer `try`, which aborts the whole event batch. -/
def logsAfter (base : Ymd) (nowIso nowDisp : List Char)
    (gpt : Except Unit Js) (summaryTxt : List Char)
    (text : List Char) (logs : List LogEntry) :
    Except Unit (List LogEntry) :=
  if isUndoRequest text then .ok (undoStep text logs).1
  else if isBacklogMessage text then
    let content := stripBacklogMarker text
    match parseDateTimeDetailedE base content with
    | .error e => .error e
    | .ok t =>
      .ok (logs ++ [backlogEntry t (classifyStateLog content gpt) summaryTxt])
  else if isLogCandidate text then
    .ok (logs ++ [instantEntry nowIso nowDisp (classifyStateLog text gpt) summaryTxt])
  else .ok logs

/-! ### Supporting lemmas -/

theorem trimLeft_length_le (cs : List Char) : (trimLeft cs).length ≤ cs.length := by
  induction cs with
  | nil => simp [trimLeft]
  | cons c rest ih =>
    unfold trimLeft
    split
    · exact Nat.le_trans ih (Nat.le_succ _)
    · simp

theorem trimLeft_cons (c : Char) (r : List Char) :
    trimLeft (c :: r) = if wsChar c = true then trimLeft r else c :: r := rfl

theorem trimLeft_eq_self_of_length (cs : List Char)
    (h : (trimLeft cs).length = cs.length) : trimLeft cs = cs := by
  cases cs with
  | nil => rfl
  | cons c rest =>
    cases hcw : wsChar c with
    | true =>
      exfalso
      rw [trimLeft_cons, if_pos hcw] at h
      have := trimLeft_length_le rest
      simp at h
      omega
    | false =>
      rw [trimLeft_cons, if_neg (by simp [hcw])]

theorem wsChar_false_of_trimLeft_cons {c : Char} {r : List Char}
    (h : trimLeft (c :: r) = c :: r) : wsChar c = false := by
  cases hcw : wsChar c with
  | true =>
    exfalso
    rw [trimLeft_cons, if_pos hcw] at h
    have h2 : (trimLeft r).length ≤ r.length := trimLeft_length_le r
    have h3 : (trimLeft r).length = r.length + 1 := by rw [h]; rfl
    omega
  | false => rfl

theorem trimLeft_cons_not_ws {c : Char} {r : List Char}
    (h : wsChar c = false) : trimLeft (c :: r) = c :: r := by
  rw [trimLeft_cons, if_neg (by simp [h])]

theorem jsTrim_eq_self_right {cs : List Char} (h : jsTrim cs = cs) :
    trimLeft cs.reverse = cs.reverse := by
  apply trimLeft_eq_self_of_length
  have h1 : (trimLeft ((trimLeft cs.reverse).reverse)).length = cs.length := by
    rw [show trimLeft ((trimLeft cs.reverse).reverse) = jsTrim cs from rfl, h]
  have h2 : (trimLeft ((trimLeft cs.reverse).reverse)).length ≤
      (trimLeft cs.reverse).length := by
    have := trimLeft_length_le ((trimLeft cs.reverse).reverse)
    simpa using this
  have h3 : (trimLeft cs.reverse).length ≤ cs.length := by
    have := trimLeft_length_le cs.reverse
    simpa using this
  have h4 : cs.reverse.length = cs.length := by simp
  omega

theorem approxMatch_shape {cs s : List Char} (h : approxMatch cs = some s) :
    ∃ r, s = '約' :: r := by
  induction cs with
  | nil => simp [approxMatch] at h
  | cons c rest ih =>
    unfold approxMatch at h
    split at h
    · rename_i hcond
      refine ⟨rest, ?_⟩
      have hc : c = '約' := by
        have := (Bool.and_eq_true _ _).mp hcond
        exact decide_eq_true_eq.mp this.1
      cases h
      rw [hc]
    · exact ih h

theorem approxMatch_is_suffix {cs s : List Char} (h : approxMatch cs = some s) :
    ∃ p, cs = p ++ s := by
  induction cs with
  | nil => simp [approxMatch] at h
  | cons c rest ih =>
    unfold approxMatch at h
    split at h
    · cases h
      exact ⟨[], rfl⟩
    · obtain ⟨p, hp⟩ := ih h
      exact ⟨c :: p, by rw [List.cons_append, hp]⟩

theorem jsTrim_approx {text s : List Char} (ht : jsTrim text = text)
    (hm : approxMatch text = some s) : jsTrim s = s := by
  obtain ⟨r, hr⟩ := approxMatch_shape hm
  obtain ⟨p, hp⟩ := approxMatch_is_suffix hm
  have hsne : s ≠ [] := by rw [hr]; simp
  obtain ⟨c0, t0, h0⟩ : ∃ c0 t0, s.reverse = c0 :: t0 := by
    cases hrev : s.reverse with
    | nil => exact absurd (by simpa using hrev) hsne
    | cons a b => exact ⟨a, b, rfl⟩
  have htr : trimLeft text.reverse = text.reverse := jsTrim_eq_self_right ht
  have htext_rev : text.reverse = c0 :: (t0 ++ p.reverse) := by
    rw [hp, List.reverse_append, h0, List.cons_append]
  rw [htext_rev] at htr
  have hc0 : wsChar c0 = false := wsChar_false_of_trimLeft_cons htr
  have hsrev : trimLeft s.reverse = s.reverse := by
    rw [h0]
    exact trimLeft_cons_not_ws hc0
  show trimLeft ((trimLeft s.reverse).reverse) = s
  rw [hsrev, List.reverse_reverse, hr]
  exact trimLeft_cons_not_ws (by decide)

theorem splitOnSpace_cons (c : Char) (rest : List Char) :
    splitOnSpace (c :: rest) =
      match splitOnSpace rest with
      | [] => [[]]
      | w :: ws => if c = ' ' then [] :: w :: ws else (c :: w) :: ws := rfl

theorem splitOnSpace_ne_nil (cs : List Char) : splitOnSpace cs ≠ [] := by
  cases cs with
  | nil => simp [splitOnSpace]
  | cons c rest =>
    rw [splitOnSpace_cons]
    cases h : splitOnSpace rest with
    | nil => simp
    | cons w ws =>
      show (if c = ' ' then [] :: w :: ws else (c :: w) :: ws) ≠ []
      split <;> simp

theorem splitOnSpace_no_space (cs : List Char) :
    ∀ w ∈ splitOnSpace cs, ' ' ∉ w := by
  induction cs with
  | nil =>
    intro w hw
    simp [splitOnSpace] at hw
    simp [hw]
  | cons c rest ih =>
    intro w hw
    rw [splitOnSpace_cons] at hw
    cases h : splitOnSpace rest with
    | nil => exact absurd h (splitOnSpace_ne_nil rest)
    | cons w0 ws =>
      rw [h] at hw
      have hw2 : w ∈ (if c = ' ' then [] :: w0 :: ws else (c :: w0) :: ws) := hw
      clear hw
      rename' hw2 => hw
      by_cases hc : c = ' '
      · rw [if_pos hc] at hw
        rcases List.mem_cons.mp hw with h1 | h2
        · simp [h1]
        · exact ih w (h ▸ h2)
      · rw [if_neg hc] at hw
        rcases List.mem_cons.mp hw with h1 | h2
        · subst h1
          intro hmem
          rcases List.mem_cons.mp hmem with h3 | h4
          · exact hc h3.symm
          · exact ih w0 (h ▸ List.mem_cons_self w0 ws) h4
        · exact ih w (h ▸ List.mem_cons.mpr (Or.inr h2))

theorem mem_trimLeft {c : Char} {cs : List Char} (h : c ∈ trimLeft cs) : c ∈ cs := by
  induction cs with
  | nil => simp [trimLeft] at h
  | cons a r ih =>
    rw [trimLeft_cons] at h
    split at h
    · exact List.mem_cons.mpr (Or.inr (ih h))
    · exact h

theorem mem_jsTrim {c : Char} {cs : List Char} (h : c ∈ jsTrim cs) : c ∈ cs := by
  have h1 : c ∈ (trimLeft cs.reverse).reverse := mem_trimLeft h
  have h2 : c ∈ trimLeft cs.reverse := List.mem_reverse.mp h1
  have h3 : c ∈ cs.reverse := mem_trimLeft h2
  exact List.mem_reverse.mp h3

theorem findTokenIdx_cons (tok : List Char) (e : LogEntry) (rest : List LogEntry) :
    findTokenIdx tok (e :: rest) =
      if matchesToken tok e then some 0
      else (findTokenIdx tok rest).map (· + 1) := rfl

theorem findTokenIdx_none {tok : List Char} {logs : List LogEntry}
    (h : ∀ e ∈ logs, matchesToken tok e = false) :
    findTokenIdx tok logs = none := by
  induction logs with
  | nil => rfl
  | cons e rest ih =>
    rw [findTokenIdx_cons, if_neg (by simp [h e (List.mem_cons_self e rest)]),
      ih (fun e' he' => h e' (List.mem_cons.mpr (Or.inr he')))]
    rfl

theorem findTokenIdx_eq_some {tok : List Char} {logs : List LogEntry} {i : Nat}
    {e : LogEntry} (he : logs[i]? = some e) (hm : matchesToken tok e = true)
    (hfirst : ∀ k, k < i → ∀ e', logs[k]? = some e' → matchesToken tok e' = false) :
    findTokenIdx tok logs = some i := by
  induction logs generalizing i with
  | nil => simp at he
  | cons f rest ih =>
    cases i with
    | zero =>
      simp at he
      rw [findTokenIdx_cons, if_pos (he ▸ hm)]
    | succ n =>
      have hf : matchesToken tok f = false :=
        hfirst 0 (Nat.succ_pos n) f (by simp)
      rw [findTokenIdx_cons, if_neg (by simp [hf])]
      have hrest : findTokenIdx tok rest = some n := by
        apply ih (by simpa using he)
        intro k hk e' he'
        exact hfirst (k + 1) (Nat.succ_lt_succ hk) e' (by simpa using he')
      rw [hrest]
      rfl

theorem lastNonDeletedIdx_cons (e : LogEntry) (rest : List LogEntry) :
    lastNonDeletedIdx (e :: rest) =
      match lastNonDeletedIdx rest with
      | some j => some (j + 1)
      | none => if e.deleted then none else some 0 := rfl

theorem lastNonDeletedIdx_none_iff {logs : List LogEntry} :
    lastNonDeletedIdx logs = none ↔ ∀ e ∈ logs, e.deleted = true := by
  induction logs with
  | nil => simp [lastNonDeletedIdx]
  | cons e rest ih =>
    rw [lastNonDeletedIdx_cons]
    constructor
    · intro h
      cases hrest : lastNonDeletedIdx rest with
      | some j => rw [hrest] at h; simp at h
      | none =>
        rw [hrest] at h
        intro e' he'
        rcases List.mem_cons.mp he' with h1 | h2
        · subst h1
          by_contra hd
          rw [if_neg (by simpa using hd)] at h
          simp at h
        · exact ih.mp hrest e' h2
    · intro h
      have hrest : lastNonDeletedIdx rest = none :=
        ih.mpr (fun e' he' => h e' (List.mem_cons.mpr (Or.inr he')))
      rw [hrest, if_pos (h e (List.mem_cons_self e rest))]

theorem lastNonDeletedIdx_eq_some {logs : List LogEntry} {j : Nat} {f : LogEntry}
    (hj : logs[j]? = some f) (hf : f.deleted = false)
    (hlast : ∀ k, j < k → ∀ e', logs[k]? = some e' → e'.deleted = true) :
    lastNonDeletedIdx logs = some j := by
  induction logs generalizing j with
  | nil => simp at hj
  | cons e rest ih =>
    cases j with
    | zero =>
      simp at hj
      have hrest : lastNonDeletedIdx rest = none := by
        apply lastNonDeletedIdx_none_iff.mpr
        intro e' he'
        obtain ⟨k, hk⟩ := List.getElem?_of_mem he'
        exact hlast (k + 1) (Nat.succ_pos k) e' (by simpa using hk)
      rw [lastNonDeletedIdx_cons, hrest]
      subst hj
      rw [if_neg (by simp [hf])]
    | succ n =>
      have hrest : lastNonDeletedIdx rest = some n := by
        apply ih (by simpa using hj)
        intro k hk e' he'
        exact hlast (k + 1) (Nat.succ_lt_succ hk) e' (by simpa using he')
      rw [lastNonDeletedIdx_cons, hrest]

theorem daysInMonth_ge (y : Int) (m : Nat) : 28 ≤ daysInMonth y m := by
  unfold daysInMonth
  split
  · split <;> omega
  · split <;> omega

theorem daysInMonth_le (y : Int) (m : Nat) : daysInMonth y m ≤ 31 := by
  unfold daysInMonth
  split
  · split <;> omega
  · split <;> omega

theorem nextDay_prevDay (dt : Ymd) (h : validYmd dt = true) :
    nextDay (prevDay dt) = dt := by
  obtain ⟨y, m, d⟩ := dt
  simp [validYmd] at h
  unfold prevDay
  by_cases hd : 1 < d
  · rw [if_pos (by simpa using hd)]
    unfold nextDay
    simp only
    rw [if_pos (by show d - 1 < daysInMonth y m; omega)]
    simp
    omega
  · rw [if_neg (by simpa using hd)]
    have hd1 : d = 1 := by omega
    by_cases hm : 1 < m
    · rw [if_pos (by simpa using hm)]
      unfold nextDay
      simp only
      rw [if_neg (by simp)]
      have h28 := daysInMonth_ge y (m - 1)
      rw [if_pos (by show m - 1 < 12; omega)]
      simp
      omega
    · rw [if_neg (by simpa using hm)]
      have hm1 : m = 1 := by omega
      unfold nextDay
      simp only
      rw [if_neg (by simp [daysInMonth])]
      rw [if_neg (by simp)]
      simp [hm1, hd1]

theorem prevDay_nextDay (dt : Ymd) (h : validYmd dt = true) :
    prevDay (nextDay dt) = dt := by
  obtain ⟨y, m, d⟩ := dt
  simp [validYmd] at h
  unfold nextDay
  by_cases hd : d < daysInMonth y m
  · rw [if_pos (by simpa using hd)]
    unfold prevDay
    simp only
    rw [if_pos (by simp; omega)]
    simp
  · rw [if_neg (by simpa using hd)]
    have hdeq : d = daysInMonth y m := by omega
    by_cases hm : m < 12
    · rw [if_pos (by simpa using hm)]
      unfold prevDay
      simp only
      rw [if_neg (by simp)]
      rw [if_pos (by show 1 < m + 1; omega)]
      simp
      omega
    · rw [if_neg (by simpa using hm)]
      have hm12 : m = 12 := by omega
      unfold prevDay
      simp only
      rw [if_neg (by simp)]
      rw [if_neg (by simp)]
      have h31 : daysInMonth y 12 = 31 := by simp [daysInMonth]
      have hd31 : d = 31 := by rw [hdeq, hm12, h31]
      simp [hm12, hd31]

/-! ### Claim theorems -/

/-- C5 (counterexample): the claimed relative-day priority order
(day-before-yesterday before today) is not the code's.  The text
前天今天 contains both 前天 and 今天; under the claimed priority the
resolved date would be the base minus two days (2025-10-10), but the
parser resolves it to the base itself (2025-10-12), because the source
tests 今天 first. -/
theorem c5_counterexample :
    hasVagueMarker "前天今天".data = false ∧
    hasSub "前天" "前天今天".data = true ∧
    parseDateTimeDetailedE ⟨2025, 10, 12⟩ "前天今天".data =
      .ok ⟨"10/12 00:00".data, some ⟨2025, 10, 12, 0, 0⟩⟩ ∧
    prevDay (prevDay ⟨2025, 10, 12⟩) = ⟨2025, 10, 10⟩ ∧
    (⟨2025, 10, 12, 0, 0⟩ : IsoParts) ≠ ⟨2025, 10, 10, 0, 0⟩ := by
  refine ⟨rfl, rfl, by decide, by decide, by decide⟩

/-- C5 (amended): the Temporal Parser applies the first matching
relative-day phrase in the source's priority order 今天 (base+0),
昨天 (base−1), 前天 (base−2), 明天 (base+1); the offsets themselves are
exactly 0, −1, −2, +1 (`prevDay`/`nextDay` step one calendar day, as the
inverse lemmas `nextDay_prevDay`/`prevDay_nextDay` witness). -/
theorem c5_relative_day_offsets (base : Ymd) (text : List Char) :
    (hasSub "今天" text = true → resolveRelativeDay base text = (base, true)) ∧
    (hasSub "今天" text = false → hasSub "昨天" text = true →
      resolveRelativeDay base text = (prevDay base, true)) ∧
    (hasSub "今天" text = false → hasSub "昨天" text = false →
      hasSub "前天" text = true →
      resolveRelativeDay base text = (prevDay (prevDay base), true)) ∧
    (hasSub "今天" text = false → hasSub "昨天" text = false →
      hasSub "前天" text = false → hasSub "明天" text = true →
      resolveRelativeDay base text = (nextDay base, true)) := by
  unfold resolveRelativeDay
  refine ⟨?_, ?_, ?_, ?_⟩ <;> intros <;> simp [*]

/-- C5 (witness): the yesterday clause at a concrete input. -/
theorem c5_witness :
    hasSub "今天" "昨天14:30".data = false ∧
    hasSub "昨天" "昨天14:30".data = true ∧
    resolveRelativeDay ⟨2025, 10, 12⟩ "昨天14:30".data = (⟨2025, 10, 11⟩, true) :=
  ⟨by decide, by decide,
    ((c5_relative_day_offsets ⟨2025, 10, 12⟩ "昨天14:30".data).2.1
      (by decide) (by decide)).trans (by decide)⟩

/-- C4 (counterexample): a summary request containing both an explicit
month/day pattern and the weekly keyword resolves to the week range,
not to the custom single day the claim requires: the source tests the
weekly keyword first. -/
theorem c4_counterexample :
    isSummaryRequest "9/15 週總結".data = true ∧
    mdMatch "9/15 週總結".data = some (9, 15) ∧
    hasSub "週" "9/15 週總結".data = true ∧
    summaryRangeType "9/15 週總結".data = .week ∧
    RangeType.week ≠ RangeType.custom 9 15 := by
  refine ⟨rfl, rfl, rfl, rfl, by decide⟩

/-- C4 (amended): exactly one range is selected, with the source's
priority weekly keyword > monthly keyword > explicit numeric month/day
pattern > today. -/
theorem c4_range_priority (text : List Char) :
    (hasSub "週" text = true → summaryRangeType text = .week) ∧
    (hasSub "週" text = false → hasSub "月" text = true →
      summaryRangeType text = .month) ∧
    (hasSub "週" text = false → hasSub "月" text = false →
      ∀ m d, mdMatch text = some (m, d) → summaryRangeType text = .custom m d) ∧
    (hasSub "週" text = false → hasSub "月" text = false →
      mdMatch text = none → summaryRangeType text = .today) := by
  unfold summaryRangeType
  refine ⟨?_, ?_, ?_, ?_⟩ <;> intros <;> simp [*]

/-- C4 (witness): a summary request with only an explicit month/day
pattern resolves to the custom single day. -/
theorem c4_witness :
    hasSub "週" "9/15 總結".data = false ∧
    hasSub "月" "9/15 總結".data = false ∧
    summaryRangeType "9/15 總結".data = .custom 9 15 :=
  ⟨by decide, by decide,
    (c4_range_priority "9/15 總結".data).2.2.1 (by decide) (by decide) 9 15 (by decide)⟩

/-- C6: for every (trimmed) input text containing the vague-time marker,
the Temporal Parser returns `instant = null` with display equal to the
substring from the marker to the end of the text (the whole text when
the marker-anchored match cannot be isolated), for every base date —
the branch is terminal, performing no date or time resolution. -/
theorem c6_vague_marker_terminal (base : Ymd) (text : List Char)
    (htrim : jsTrim text = text) (hv : hasVagueMarker text = true) :
    parseDateTimeDetailedE base text = .ok ⟨(approxMatch text).getD text, none⟩ := by
  unfold parseDateTimeDetailedE
  rw [if_pos hv]
  cases hm : approxMatch text with
  | none => simp [hm, htrim]
  | some s => simp [hm, jsTrim_approx htrim hm]

/-- C6 (witness): a concrete vague-time text. -/
theorem c6_witness :
    jsTrim "大約中午吃飯".data = "大約中午吃飯".data ∧
    hasVagueMarker "大約中午吃飯".data = true ∧
    parseDateTimeDetailedE ⟨2025, 10, 12⟩ "大約中午吃飯".data =
      .ok ⟨"約中午吃飯".data, none⟩ :=
  ⟨by decide, by decide,
    (c6_vague_marker_terminal ⟨2025, 10, 12⟩ "大約中午吃飯".data
      (by decide) (by decide)).trans (by decide)⟩

/-- C7: for every input text with no vague-time marker, no relative-day
word and no explicit month/day digit pattern, the Temporal Parser
returns `instant = null` and display equal to the trimmed input exactly,
for every base date. -/
theorem c7_no_date_round_trip (base : Ymd) (text : List Char)
    (h1 : hasVagueMarker text = false)
    (h2 : hasSub "今天" text = false) (h3 : hasSub "昨天" text = false)
    (h4 : hasSub "前天" text = false) (h5 : hasSub "明天" text = false)
    (h6 : mdMatch text = none) :
    parseDateTimeDetailedE base text = .ok ⟨jsTrim text, none⟩ := by
  unfold parseDateTimeDetailedE resolveRelativeDay
  simp [h1, h2, h3, h4, h5, h6]

/-- C7 (witness): a concrete dateless text round-trips. -/
theorem c7_witness :
    hasVagueMarker "洗衣服".data = false ∧
    mdMatch "洗衣服".data = none ∧
    parseDateTimeDetailedE ⟨2025, 10, 12⟩ "洗衣服".data =
      .ok ⟨"洗衣服".data, none⟩ :=
  ⟨by decide, by decide,
    (c7_no_date_round_trip ⟨2025, 10, 12⟩ "洗衣服".data
      (by decide) (by decide) (by decide) (by decide) (by decide)
      (by decide)).trans (by decide)⟩

theorem isLogCandidate_false_of_summaryKw {text : List Char}
    (h : hasSub "總結" text = true) : isLogCandidate text = false := by
  unfold isLogCandidate
  split
  · rfl
  · split
    · rfl
    · rw [if_pos (by simp [h])]

/-- C1: for every trimmed text that is neither an undo request nor a
backlog message, if it contains the summary keyword 總結 then the router
selects the Summary branch — never InstantLog, because `isLogCandidate`
explicitly excludes texts containing 總結 — and the handler leaves the
log store unchanged. -/
theorem c1_summary_wins (text : List Char) (logs : List LogEntry)
    (base : Ymd) (nowIso nowDisp : List Char) (gpt : Except Unit Js)
    (summaryTxt : List Char)
    (h1 : isUndoRequest text = false) (h2 : isBacklogMessage text = false)
    (h3 : isSummaryRequest text = true) :
    routeOf text = .summary ∧
    logsAfter base nowIso nowDisp gpt summaryTxt text logs = .ok logs := by
  have hc : isLogCandidate text = false := isLogCandidate_false_of_summaryKw h3
  constructor
  · unfold routeOf
    simp [h1, h2, hc, h3]
  · unfold logsAfter
    simp [h1, h2, hc]

/-- C1 (witness): a summary request that also contains the action verb
吃 routes to Summary and appends nothing. -/
theorem c1_witness :
    isUndoRequest "總結今天吃什麼".data = false ∧
    isBacklogMessage "總結今天吃什麼".data = false ∧
    isSummaryRequest "總結今天吃什麼".data = true ∧
    logVerbs.any (fun v => hasSub v "總結今天吃什麼".data) = true ∧
    routeOf "總結今天吃什麼".data = .summary ∧
    logsAfter ⟨2025, 10, 12⟩ [] [] (.error ()) [] "總結今天吃什麼".data [] = .ok [] := by
  have h := c1_summary_wins "總結今天吃什麼".data [] ⟨2025, 10, 12⟩ [] []
    (.error ()) [] (by decide) (by decide) (by decide)
  exact ⟨by decide, by decide, by decide, by decide, h.1, h.2⟩

/-- C2: the claim that no condition in the core is fatal is wrong — a
backlog message with an out-of-range numeric month/day (13/45) makes the
temporal parser build an Invalid Date whose `toISOString()` throws; the
exception escapes the per-message logic (modelled by the `.error`
result), reaching the handler's outer catch and aborting the whole event
batch with no reply. -/
theorem c2_invalid_date_crash :
    isBacklogMessage "補記 13/45 澆花".data = true ∧
    stripBacklogMarker "補記 13/45 澆花".data = "13/45 澆花".data ∧
    mdMatch "13/45 澆花".data = some (13, 45) ∧
    validDateTime 2025 13 45 0 0 = false ∧
    parseDateTimeDetailedE ⟨2025, 10, 12⟩ "13/45 澆花".data = .error () ∧
    logsAfter ⟨2025, 10, 12⟩ [] [] (.error ()) [] "補記 13/45 澆花".data [] =
      .error () := by
  refine ⟨rfl, rfl, rfl, rfl, by decide, rfl⟩

/-- C3 (counterexample): with an explicit token matching two non-deleted
entries, the source's `logs.find(...)` soft-deletes the first (oldest)
matching entry, not the most recent one: after the undo the older entry
is deleted and the newer matching entry is untouched. -/
theorem c3_counterexample :
    extractToken "撤銷 2025-09-15T06:00:00.000Z".data =
      some "2025-09-15T06:00:00.000Z".data ∧
    matchesToken "2025-09-15T06:00:00.000Z".data
      ⟨.backlog, some "2025-09-15T06:00:00.000Z".data, "9/15 14:00".data,
        "買菜".data, .undefined, .undefined, false⟩ = true ∧
    (undoStep "撤銷 2025-09-15T06:00:00.000Z".data
      [⟨.backlog, some "2025-09-15T06:00:00.000Z".data, "9/15 14:00".data,
         "澆花".data, .undefined, .undefined, false⟩,
       ⟨.backlog, some "2025-09-15T06:00:00.000Z".data, "9/15 14:00".data,
         "買菜".data, .undefined, .undefined, false⟩]).1 =
      [⟨.backlog, some "2025-09-15T06:00:00.000Z".data, "9/15 14:00".data,
         "澆花".data, .undefined, .undefined, true⟩,
       ⟨.backlog, some "2025-09-15T06:00:00.000Z".data, "9/15 14:00".data,
         "買菜".data, .undefined, .undefined, false⟩] := by
  refine ⟨rfl, rfl, rfl⟩

/-- C3 (amended): with an explicit token, the entry soft-deleted is the
first (oldest) non-deleted entry whose `timeISO` or `timeDisplay` equals
the token exactly; when no token is given, or no entry matches, the most
recent non-deleted entry in the whole store is soft-deleted instead. -/
theorem c3_undo_target (text : List Char) (logs : List LogEntry) :
    (∀ tok, extractToken text = some tok →
      ∀ i e, logs[i]? = some e → matchesToken tok e = true →
        (∀ k, k < i → ∀ e', logs[k]? = some e' → matchesToken tok e' = false) →
        undoStep text logs = (setDeletedAt logs i, undoReply e)) ∧
    (∀ tok, extractToken text = some tok →
      (∀ e ∈ logs, matchesToken tok e = false) →
      ∀ j f, logs[j]? = some f → f.deleted = false →
        (∀ k, j < k → ∀ e', logs[k]? = some e' → e'.deleted = true) →
        undoStep text logs = (setDeletedAt logs j, undoReply f)) ∧
    (extractToken text = none →
      ∀ j f, logs[j]? = some f → f.deleted = false →
        (∀ k, j < k → ∀ e', logs[k]? = some e' → e'.deleted = true) →
        undoStep text logs = (setDeletedAt logs j, undoReply f)) := by
  refine ⟨?_, ?_, ?_⟩
  · intro tok htok i e he hm hfirst
    have hfind : findTokenIdx tok logs = some i := findTokenIdx_eq_some he hm hfirst
    unfold undoStep undoTargetIdx
    rw [htok]
    simp only [hfind, he]
  · intro tok htok hnone j f hj hf hlast
    have hfind : findTokenIdx tok logs = none := findTokenIdx_none hnone
    have hlastIdx : lastNonDeletedIdx logs = some j :=
      lastNonDeletedIdx_eq_some hj hf hlast
    unfold undoStep undoTargetIdx
    rw [htok]
    simp only [hfind, hlastIdx, hj]
  · intro htok j f hj hf hlast
    have hlastIdx : lastNonDeletedIdx logs = some j :=
      lastNonDeletedIdx_eq_some hj hf hlast
    unfold undoStep undoTargetIdx
    rw [htok]
    simp only [hlastIdx, hj]

/-- C3 (witness): explicit token deleting the unique matching entry. -/
theorem c3_witness :
    extractToken "撤銷 9/15".data = some "9/15".data ∧
    undoStep "撤銷 9/15".data
      [⟨.backlog, none, "9/15".data, "澆花".data, .undefined, .undefined, false⟩] =
      ([⟨.backlog, none, "9/15".data, "澆花".data, .undefined, .undefined, true⟩],
        undoReply ⟨.backlog, none, "9/15".data, "澆花".data, .undefined, .undefined, false⟩) := by
  have h := (c3_undo_target "撤銷 9/15".data
      [⟨.backlog, none, "9/15".data, "澆花".data, .undefined, .undefined, false⟩]).1
    "9/15".data rfl 0
    ⟨.backlog, none, "9/15".data, "澆花".data, .undefined, .undefined, false⟩
    rfl rfl (fun k hk e' he' => absurd hk (by omega))
  exact ⟨rfl, h⟩

/-- C8 (counterexample): a collaborator response that parses as JSON but
violates the closed-enumeration schema (its main label is outside the
module enumeration) is returned as-is by the classifier, not replaced by
the fixed default pair: the source applies `JSON.parse` with no schema
validation. -/
theorem c8_counterexample :
    validSchema (.jobj [("main", .jarr [.jstr "Z. 未知模組"]),
      ("tags", .jarr [.jstr "📝 其他"])]) = false ∧
    classifyStateLog "嗨嗨".data
      (.ok (.jobj [("main", .jarr [.jstr "Z. 未知模組"]),
        ("tags", .jarr [.jstr "📝 其他"])])) =
      .jobj [("main", .jarr [.jstr "Z. 未知模組"]), ("tags", .jarr [.jstr "📝 其他"])] ∧
    .jobj [("main", .jarr [.jstr "Z. 未知模組"]), ("tags", .jarr [.jstr "📝 其他"])] ≠
      defaultCategory := by
  refine ⟨rfl, rfl, ?_⟩
  intro h
  have h2 := congrArg (fun v => strArrayFrom ["Z. 未知模組"] (jsGetField v "main")) h
  have h3 : true = false := h2
  exact Bool.noConfusion h3

/-- C8 (amended): the classifier is total and its failure policy covers
collaborator-call failures and non-JSON responses, which yield the fixed
default pair; a response that parses as JSON is returned as-is with no
schema validation, after the two deterministic keyword rules. -/
theorem c8_classifier_policy (text : List Char) (gpt : Except Unit Js) :
    (galleryKeywords.any (fun kw => hasSub kw text) = true →
      classifyStateLog text gpt = galleryCategory) ∧
    (galleryKeywords.any (fun kw => hasSub kw text) = false →
      ((hasSub "辦公室" text && officeActions.any (fun kw => hasSub kw text)) ||
        hasSub "洗衣店" text) = true →
      classifyStateLog text gpt = officeCategory) ∧
    (galleryKeywords.any (fun kw => hasSub kw text) = false →
      ((hasSub "辦公室" text && officeActions.any (fun kw => hasSub kw text)) ||
        hasSub "洗衣店" text) = false →
      gpt = .error () → classifyStateLog text gpt = defaultCategory) ∧
    (galleryKeywords.any (fun kw => hasSub kw text) = false →
      ((hasSub "辦公室" text && officeActions.any (fun kw => hasSub kw text)) ||
        hasSub "洗衣店" text) = false →
      ∀ v, gpt = .ok v → classifyStateLog text gpt = v) := by
  unfold classifyStateLog
  refine ⟨?_, ?_, ?_, ?_⟩ <;> intros <;> simp [*]

/-- C8 (witness): a keyword-free text with a failed collaborator call
gets the fixed default pair. -/
theorem c8_witness :
    galleryKeywords.any (fun kw => hasSub kw "嗨嗨".data) = false ∧
    classifyStateLog "嗨嗨".data (.error ()) = defaultCategory :=
  ⟨by decide,
    (c8_classifier_policy "嗨嗨".data (.error ())).2.2.1
      (by decide) (by decide) rfl⟩

/-- C9: an undo request against a store that is empty or whose entries
are all soft-deleted yields the fixed nothing-to-undo reply and leaves
the store exactly as it was. -/
theorem c9_undo_empty_store (text : List Char) (logs : List LogEntry)
    (hroute : routeOf text = .undo)
    (hdel : ∀ e ∈ logs, e.deleted = true) :
    undoStep text logs = (logs, noUndoMsg) := by
  have hfind : ∀ tok, findTokenIdx tok logs = none := fun tok =>
    findTokenIdx_none (fun e he => by simp [matchesToken, hdel e he])
  have hlast : lastNonDeletedIdx logs = none := lastNonDeletedIdx_none_iff.mpr hdel
  unfold undoStep undoTargetIdx
  cases htok : extractToken text with
  | none => simp only [hlast]
  | some tok => simp only [hfind tok, hlast]

/-- C9 (witness): undo against a store whose only entry is already
soft-deleted. -/
theorem c9_witness :
    routeOf "撤銷".data = .undo ∧
    undoStep "撤銷".data
      [⟨.instant, some "i".data, "d".data, "s".data, .undefined, .undefined, true⟩] =
      ([⟨.instant, some "i".data, "d".data, "s".data, .undefined, .undefined, true⟩],
        noUndoMsg) :=
  ⟨by decide,
    c9_undo_empty_store "撤銷".data
      [⟨.instant, some "i".data, "d".data, "s".data, .undefined, .undefined, true⟩]
      (by decide)
      (by
        intro e he
        rw [List.mem_singleton] at he
        subst he
        rfl)⟩

/-- C10: the explicit undo target token is `parts[1]` of the message
split on single spaces, so it can never contain a space; consequently it
never equals any `timeDisplay` containing an internal space (such as the
locale-formatted display of every instant entry), and when additionally
no non-deleted entry's `timeISO` equals the token, the undo request
falls back to the most recent non-deleted entry of the whole store. -/
theorem c10_spaced_display_unreachable (text tok : List Char)
    (logs : List LogEntry) (htok : extractToken text = some tok)
    (hios : ∀ e ∈ logs, e.deleted = false →
      (' ' ∈ e.timeDisplay ∧ e.timeISO ≠ some tok)) :
    (' ' ∉ tok) ∧ undoTargetIdx text logs = lastNonDeletedIdx logs := by
  have hnospace : ' ' ∉ tok := by
    unfold extractToken at htok
    cases hsplit : splitOnSpace text with
    | nil => exact absurd hsplit (splitOnSpace_ne_nil text)
    | cons w rest =>
      rw [hsplit] at htok
      cases rest with
      | nil => exact absurd htok (by simp)
      | cons t rest2 =>
        have htok2 : tok = jsTrim t := by
          have : some (jsTrim t) = some tok := htok
          exact (Option.some.inj this).symm
        have hmem : t ∈ splitOnSpace text := by
          rw [hsplit]
          exact List.mem_cons.mpr (Or.inr (List.mem_cons_self t rest2))
        intro hsp
        exact splitOnSpace_no_space text t hmem (mem_jsTrim (htok2 ▸ hsp))
  refine ⟨hnospace, ?_⟩
  have hfind : findTokenIdx tok logs = none := by
    apply findTokenIdx_none
    intro e he
    cases hdel : e.deleted with
    | true => simp [matchesToken, hdel]
    | false =>
      obtain ⟨hspace, hiso⟩ := hios e he hdel
      have hdisp : (e.timeDisplay == tok) = false := by
        cases hbeq : e.timeDisplay == tok with
        | true =>
          have : e.timeDisplay = tok := eq_of_beq hbeq
          exact absurd (this ▸ hspace) hnospace
        | false => rfl
      have hisoeq : (match e.timeISO with
          | some s => s == tok
          | none => false) = false := by
        cases hti : e.timeISO with
        | none => rfl
        | some s =>
          cases hbeq : s == tok with
          | true =>
            have : s = tok := eq_of_beq hbeq
            exact absurd (hti.trans (by rw [this])) hiso
          | false => exact hbeq
      simp [matchesToken, hdel, hdisp, hisoeq]
  unfold undoTargetIdx
  rw [htok]
  simp only [hfind]

/-- C10 (witness): a backlog-style ISO token against a store whose only
entry has a spaced locale display and a different ISO string. -/
theorem c10_witness :
    (' ' ∉ "2025-09-15T06:00:00.000Z".data) ∧
    undoTargetIdx "撤銷 2025-09-15T06:00:00.000Z".data
      [⟨.instant, some "2025-10-12T01:00:00.000Z".data,
        "2025/10/12 上午9:00:00".data, "s".data, .undefined, .undefined, false⟩] =
      lastNonDeletedIdx
        [⟨.instant, some "2025-10-12T01:00:00.000Z".data,
          "2025/10/12 上午9:00:00".data, "s".data, .undefined, .undefined, false⟩] :=
  c10_spaced_display_unreachable "撤銷 2025-09-15T06:00:00.000Z".data
    "2025-09-15T06:00:00.000Z".data
    [⟨.instant, some "2025-10-12T01:00:00.000Z".data,
      "2025/10/12 上午9:00:00".data, "s".data, .undefined, .undefined, false⟩]
    (by decide)
    (by
      intro e he hdel
      rw [List.mem_singleton] at he
      subst he
      exact ⟨by decide, by decide⟩)

end Webhook
